import Mathlib

/-!
Shallow embedding of the brainfuck-cpp17 interpreter
(src/brainfuck-cpp17/brainfuck-cpp17/main.cpp) and verification of the
specification's claims about it.

Modelling choices:
* the C++ sparse tape `std::map<int, char>` (default value 0) is embedded as a
  total function `Int → Nat` holding byte values (`char` values are identified
  with their residues mod 256, which is exactly how `++`/`--`/`!= 0` observe
  them);
* `std::stack<int> instruction_loop_ptr` is a `List Int` whose head is the top;
  `top()` on an empty stack is undefined behaviour in C++ and is modelled by
  `List.headD 0` (no claim exercises that state);
* `std::vector` indexing out of range is likewise UB and modelled by
  `List.getD _ ' '`;
* the external collaborators (stdout via `printf`, stdin via `getchar`) are
  modelled by ghost `output`/`input` lists; `getchar` at end of input returns
  EOF = -1, which stored into an 8-bit cell reads back as 255;
* `dec_count` is a ghost counter incremented exactly when the
  `decrement_value_op` handler actually mutates the tape, used to express
  "the loop body executed exactly k times";
* the unbounded recursion/iteration of `run_vm` is made total with an explicit
  fuel parameter; `none` means "fuel exhausted", and every claim is stated
  with enough fuel for the execution it describes.
-/

set_option maxHeartbeats 1000000

namespace BrainfuckVM

/-- The nine operation variants of the C++ `brainfuck_op` variant type
(eight operators plus `std::monostate` for unrecognized symbols). -/
inductive brainfuck_op where
  | increment_value_op
  | decrement_value_op
  | increment_ptr_op
  | decrement_ptr_op
  | print_op
  | read_op
  | loop_start_op
  | loop_end_op
  | monostate
  deriving DecidableEq

/-- The `bf_op_map` lookup table: maps a character to its operation when the
character is one of the eight recognized operators, and `none` otherwise
(`std::map::find` failing). -/
def bf_op_map (c : Char) : Option brainfuck_op :=
  if c = '+' then some brainfuck_op.increment_value_op
  else if c = '-' then some brainfuck_op.decrement_value_op
  else if c = '>' then some brainfuck_op.increment_ptr_op
  else if c = '<' then some brainfuck_op.decrement_ptr_op
  else if c = '.' then some brainfuck_op.print_op
  else if c = ',' then some brainfuck_op.read_op
  else if c = '[' then some brainfuck_op.loop_start_op
  else if c = ']' then some brainfuck_op.loop_end_op
  else none

/-- The machine state, mirroring the C++ `brainfuck_vm_status` struct, plus the
ghost fields `input`, `output` and `dec_count` described in the file header. -/
@[ext]
structure brainfuck_vm_status where
  tape : Int → Nat
  tape_ptr : Int := 0
  instruction : List Char := []
  instruction_ptr_current : Int := -1
  instruction_loop_ptr : List Int := []
  jump_loop : Int := 0
  input : List Nat := []
  output : List Nat := []
  dec_count : Nat := 0

/-- A freshly initialized machine: zero tape, pointer 0, empty log,
instruction pointer -1, empty loop stack, skip depth 0. -/
def init_status : brainfuck_vm_status :=
  { tape := fun _ => 0 }

/-- Reading `status.tape[status.tape_ptr]` (a `std::map` read defaulting
to 0, which the total-function tape gives directly). -/
def tape_read (status : brainfuck_vm_status) : Nat :=
  status.tape status.tape_ptr

/-- Writing `status.tape[status.tape_ptr] = v`. -/
def tape_write (status : brainfuck_vm_status) (v : Nat) : brainfuck_vm_status :=
  { status with tape := fun i => if i = status.tape_ptr then v else status.tape i }

/-- The C++ `next_op` helper: look the character up in `bf_op_map`; if found
and not replaying (`via_loop = false`), append it to the instruction log and
advance the instruction pointer; if not found return `monostate` with no
logging. -/
def next_op (status : brainfuck_vm_status) (char_op : Char) (via_loop : Bool) :
    brainfuck_vm_status × brainfuck_op :=
  match bf_op_map char_op with
  | some op =>
    if via_loop then (status, op)
    else
      ({ status with
          instruction := status.instruction ++ [char_op],
          instruction_ptr_current := status.instruction_ptr_current + 1 }, op)
  | none => (status, brainfuck_op.monostate)

/-- The three recursive entry points of the C++ interpreter (the `run_vm`
function itself, the outer while loop of the loop-end handler and the inner
replay while loop), packaged as one request type so the three mutually
recursive routines can be defined by a single structural recursion on the
fuel.  `run_vm`, `loop_iter` and `replay` below are the three entry points. -/
inductive vm_req where
  | vm (s : brainfuck_vm_status) (c : Char) (vl : Bool)
  | iter (s : brainfuck_vm_status)
  | rep (s : brainfuck_vm_status) (current : Int)

/-- One recursive engine for the three routines; `fuel` bounds the recursion
depth and `none` means the fuel ran out.

* `vm_req.vm s c vl` is the C++ `run_vm(status, char_op, via_loop)`: decode
  one character via `next_op` and dispatch on the resulting operation exactly
  as the `std::visit` in the source;
* `vm_req.iter s` is the outer `while (status.tape[status.tape_ptr] != 0)`
  loop of the `loop_end_op` handler: save the current instruction pointer,
  reposition it just past the loop origin (`top() + 1`), replay the logged
  body, restore the pointer and re-check the condition;
* `vm_req.rep s current` is the inner
  `while (status.instruction_ptr_current < current)` loop: replay each logged
  instruction with `via_loop = true`, advancing the instruction pointer after
  each one. -/
def exec : Nat → vm_req → Option brainfuck_vm_status
  | 0, _ => none
  | fuel + 1, vm_req.vm status0 char_op via_loop =>
    let p := next_op status0 char_op via_loop
    let status := p.1
    match p.2 with
    | brainfuck_op.increment_value_op =>
      some (if status.jump_loop = 0 then
              tape_write status ((tape_read status + 1) % 256)
            else status)
    | brainfuck_op.decrement_value_op =>
      some (if status.jump_loop = 0 then
              { tape_write status ((tape_read status + 255) % 256) with
                  dec_count := status.dec_count + 1 }
            else status)
    | brainfuck_op.increment_ptr_op =>
      some (if status.jump_loop = 0 then
              { status with tape_ptr := status.tape_ptr + 1 }
            else status)
    | brainfuck_op.decrement_ptr_op =>
      some (if status.jump_loop = 0 then
              { status with tape_ptr := status.tape_ptr - 1 }
            else status)
    | brainfuck_op.print_op =>
      some (if status.jump_loop = 0 then
              { status with output := status.output ++ [tape_read status] }
            else status)
    | brainfuck_op.read_op =>
      some (if status.jump_loop = 0 then
              match status.input with
              | [] => tape_write status 255
              | b :: rest => { tape_write status (b % 256) with input := rest }
            else status)
    | brainfuck_op.loop_start_op =>
      some (if tape_read status ≠ 0 ∧ status.jump_loop = 0 then
              { status with
                  instruction_loop_ptr :=
                    status.instruction_ptr_current :: status.instruction_loop_ptr }
            else
              { status with jump_loop := status.jump_loop + 1 })
    | brainfuck_op.loop_end_op =>
      if status.jump_loop ≠ 0 then
        some { status with jump_loop := status.jump_loop - 1 }
      else if tape_read status ≠ 0 then
        match exec fuel (vm_req.iter status) with
        | none => none
        | some t => some { t with instruction_loop_ptr := t.instruction_loop_ptr.tail }
      else
        some status
    | brainfuck_op.monostate => some status
  | fuel + 1, vm_req.iter status =>
    if tape_read status ≠ 0 then
      let current := status.instruction_ptr_current
      match exec fuel (vm_req.rep
          { status with
              instruction_ptr_current := status.instruction_loop_ptr.headD 0 + 1 }
          current) with
      | none => none
      | some s => exec fuel (vm_req.iter { s with instruction_ptr_current := current })
    else
      some status
  | fuel + 1, vm_req.rep status current =>
    if status.instruction_ptr_current < current then
      match exec fuel (vm_req.vm status
          (status.instruction.getD status.instruction_ptr_current.toNat ' ') true) with
      | none => none
      | some s =>
        exec fuel (vm_req.rep { s with instruction_ptr_current := s.instruction_ptr_current + 1 }
          current)
    else
      some status

/-- The C++ `run_vm` entry point. -/
def run_vm (fuel : Nat) (status : brainfuck_vm_status) (char_op : Char)
    (via_loop : Bool) : Option brainfuck_vm_status :=
  exec fuel (vm_req.vm status char_op via_loop)

/-- The outer while loop of the `loop_end_op` handler. -/
def loop_iter (fuel : Nat) (status : brainfuck_vm_status) :
    Option brainfuck_vm_status :=
  exec fuel (vm_req.iter status)

/-- The inner replay while loop of the `loop_end_op` handler. -/
def replay (fuel : Nat) (status : brainfuck_vm_status) (current : Int) :
    Option brainfuck_vm_status :=
  exec fuel (vm_req.rep status current)

/-- The driver loop of `main`: feed the program's characters one at a time to
`run_vm` with `via_loop = false`; each character is given `fuel` for its own
(possibly recursive) execution. -/
def run_program (fuel : Nat) : brainfuck_vm_status → List Char → Option brainfuck_vm_status
  | status, [] => some status
  | status, c :: rest =>
    match run_vm fuel status c false with
    | none => none
    | some s => run_program fuel s rest

/-! ### Derived notions used to state the claims -/

/-- The state after `next_op` logs a freshly consumed recognized symbol:
the symbol is appended to the instruction log and the instruction pointer
advances by one. -/
def logged (s : brainfuck_vm_status) (c : Char) : brainfuck_vm_status :=
  { s with instruction := s.instruction ++ [c],
           instruction_ptr_current := s.instruction_ptr_current + 1 }

/-- The effect of one character on the skip depth while skipping:
a loop start deepens the skip by one, a loop end closes one level,
every other character leaves it alone. -/
def skipDelta (c : Char) : Int :=
  if c = '[' then 1 else if c = ']' then -1 else 0

/-- The net bracket nesting contribution of a character list. -/
def nest (cs : List Char) : Int :=
  (cs.map skipDelta).sum

/-- A character list is safely skippable from depth `d` when the skip depth
stays positive before each character is processed. -/
def skipOK : List Char → Int → Bool
  | [], _ => true
  | c :: cs, d => decide (0 < d) && skipOK cs (d + skipDelta c)

/-! ### Facts about the decoder -/

theorem next_op_false_some {c : Char} {op : brainfuck_op} (h : bf_op_map c = some op)
    (s : brainfuck_vm_status) : next_op s c false = (logged s c, op) := by
  simp [next_op, h, logged]

theorem next_op_true_some {c : Char} {op : brainfuck_op} (h : bf_op_map c = some op)
    (s : brainfuck_vm_status) : next_op s c true = (s, op) := by
  simp [next_op, h]

theorem next_op_none {c : Char} (h : bf_op_map c = none)
    (s : brainfuck_vm_status) (vl : Bool) :
    next_op s c vl = (s, brainfuck_op.monostate) := by
  simp [next_op, h]

/-- Every character is one of the eight operator characters or unmapped. -/
theorem bf_char_cases (c : Char) :
    c = '+' ∨ c = '-' ∨ c = '>' ∨ c = '<' ∨ c = '.' ∨ c = ',' ∨ c = '[' ∨ c = ']' ∨
      bf_op_map c = none := by
  by_cases h1 : c = '+'
  · exact Or.inl h1
  by_cases h2 : c = '-'
  · exact Or.inr (Or.inl h2)
  by_cases h3 : c = '>'
  · exact Or.inr (Or.inr (Or.inl h3))
  by_cases h4 : c = '<'
  · exact Or.inr (Or.inr (Or.inr (Or.inl h4)))
  by_cases h5 : c = '.'
  · exact Or.inr (Or.inr (Or.inr (Or.inr (Or.inl h5))))
  by_cases h6 : c = ','
  · exact Or.inr (Or.inr (Or.inr (Or.inr (Or.inr (Or.inl h6)))))
  by_cases h7 : c = '['
  · exact Or.inr (Or.inr (Or.inr (Or.inr (Or.inr (Or.inr (Or.inl h7))))))
  by_cases h8 : c = ']'
  · exact Or.inr (Or.inr (Or.inr (Or.inr (Or.inr (Or.inr (Or.inr (Or.inl h8)))))))
  refine Or.inr (Or.inr (Or.inr (Or.inr (Or.inr (Or.inr (Or.inr (Or.inr ?_)))))))
  simp [bf_op_map, h1, h2, h3, h4, h5, h6, h7, h8]

/-! ### Step lemmas for single operations outside a skip -/

theorem run_vm_inc (fuel : Nat) (s : brainfuck_vm_status) (h : s.jump_loop = 0) :
    run_vm (fuel + 1) s '+' false =
      some (tape_write (logged s '+') ((tape_read (logged s '+') + 1) % 256)) := by
  simp [run_vm, exec, next_op, bf_op_map, logged, h]

theorem run_vm_dec (fuel : Nat) (s : brainfuck_vm_status) (h : s.jump_loop = 0) :
    run_vm (fuel + 1) s '-' false =
      some { tape_write (logged s '-') ((tape_read (logged s '-') + 255) % 256) with
               dec_count := s.dec_count + 1 } := by
  simp [run_vm, exec, next_op, bf_op_map, logged, h]

theorem run_vm_incp (fuel : Nat) (s : brainfuck_vm_status) (h : s.jump_loop = 0) :
    run_vm (fuel + 1) s '>' false =
      some { logged s '>' with tape_ptr := s.tape_ptr + 1 } := by
  simp [run_vm, exec, next_op, bf_op_map, logged, h]

theorem run_vm_decp (fuel : Nat) (s : brainfuck_vm_status) (h : s.jump_loop = 0) :
    run_vm (fuel + 1) s '<' false =
      some { logged s '<' with tape_ptr := s.tape_ptr - 1 } := by
  simp [run_vm, exec, next_op, bf_op_map, logged, h]

theorem run_vm_lbracket_push (fuel : Nat) (s : brainfuck_vm_status) (vl : Bool)
    (h : s.jump_loop = 0) (ht : tape_read s ≠ 0) :
    run_vm (fuel + 1) s '[' vl =
      some { (next_op s '[' vl).1 with
               instruction_loop_ptr :=
                 (next_op s '[' vl).1.instruction_ptr_current ::
                   s.instruction_loop_ptr } := by
  unfold tape_read at ht
  cases vl <;>
    simp [run_vm, exec, next_op, bf_op_map, tape_read, tape_write, logged, h, ht]

theorem run_vm_lbracket_zero (fuel : Nat) (s : brainfuck_vm_status) (vl : Bool)
    (h : s.jump_loop = 0) (ht : tape_read s = 0) :
    run_vm (fuel + 1) s '[' vl =
      some { (next_op s '[' vl).1 with jump_loop := 1 } := by
  unfold tape_read at ht
  cases vl <;>
    simp [run_vm, exec, next_op, bf_op_map, tape_read, logged, h, ht]

theorem run_vm_rbracket_zero (fuel : Nat) (s : brainfuck_vm_status) (vl : Bool)
    (h : s.jump_loop = 0) (ht : tape_read s = 0) :
    run_vm (fuel + 1) s ']' vl = some ((next_op s ']' vl).1) := by
  unfold tape_read at ht
  cases vl <;>
    simp [run_vm, exec, next_op, bf_op_map, tape_read, logged, h, ht]

theorem run_vm_rbracket_loop (fuel : Nat) (s : brainfuck_vm_status) (vl : Bool)
    (h : s.jump_loop = 0) (ht : tape_read s ≠ 0) :
    run_vm (fuel + 1) s ']' vl =
      match loop_iter fuel ((next_op s ']' vl).1) with
      | none => none
      | some t => some { t with instruction_loop_ptr := t.instruction_loop_ptr.tail } := by
  unfold tape_read at ht
  cases vl <;>
    simp [run_vm, exec, loop_iter, next_op, bf_op_map, tape_read, logged, h, ht]


/-- While the skip depth is positive, every operation leaves everything except
the instruction log, the instruction pointer and the skip depth unchanged, and
the skip depth moves by the character's bracket contribution. -/
theorem run_vm_skip (fuel : Nat) (s : brainfuck_vm_status) (c : Char) (vl : Bool)
    (h : 0 < s.jump_loop) :
    run_vm (fuel + 1) s c vl =
      some { (next_op s c vl).1 with jump_loop := s.jump_loop + skipDelta c } := by
  have h0 : ¬ s.jump_loop = 0 := by omega
  rcases bf_char_cases c with rfl | rfl | rfl | rfl | rfl | rfl | rfl | rfl | hnone
  · cases vl <;> simp [run_vm, exec, next_op, bf_op_map, skipDelta, h0]
  · cases vl <;> simp [run_vm, exec, next_op, bf_op_map, skipDelta, h0]
  · cases vl <;> simp [run_vm, exec, next_op, bf_op_map, skipDelta, h0]
  · cases vl <;> simp [run_vm, exec, next_op, bf_op_map, skipDelta, h0]
  · cases vl <;> simp [run_vm, exec, next_op, bf_op_map, skipDelta, h0]
  · cases vl <;> simp [run_vm, exec, next_op, bf_op_map, skipDelta, h0]
  · cases vl <;> simp [run_vm, exec, next_op, bf_op_map, skipDelta, h0]
  · cases vl <;> simp [run_vm, exec, next_op, bf_op_map, skipDelta, h0, sub_eq_add_neg]
  · have hl : c ≠ '[' := by rintro rfl; simp [bf_op_map] at hnone
    have hr : c ≠ ']' := by rintro rfl; simp [bf_op_map] at hnone
    cases vl <;> simp [run_vm, exec, next_op, hnone, skipDelta, hl, hr]


theorem run_program_append (fuel : Nat) (s : brainfuck_vm_status) (as bs : List Char) :
    run_program fuel s (as ++ bs) =
      match run_program fuel s as with
      | none => none
      | some t => run_program fuel t bs := by
  induction as generalizing s with
  | nil => simp [run_program]
  | cons c rest ih =>
    simp only [List.cons_append, run_program]
    cases h : run_vm fuel s c false with
    | none => rfl
    | some t => exact ih t

theorem nest_nil : nest [] = 0 := rfl

theorem nest_cons (c : Char) (cs : List Char) : nest (c :: cs) = skipDelta c + nest cs := by
  simp [nest]

/-- Running a skippable character list from a positive skip depth touches only
the log fields and the skip depth, which moves by the list's net nesting. -/
theorem skip_run (cs : List Char) (fuel : Nat) (s : brainfuck_vm_status)
    (hok : skipOK cs s.jump_loop = true) :
    (run_program (fuel + 1) s cs).map
        (fun t => (t.tape, t.tape_ptr, t.instruction_loop_ptr, t.output, t.input,
                   t.dec_count, t.jump_loop)) =
      some (s.tape, s.tape_ptr, s.instruction_loop_ptr, s.output, s.input,
            s.dec_count, s.jump_loop + nest cs) := by
  induction cs generalizing s with
  | nil => simp [run_program, nest_nil]
  | cons c rest ih =>
    rw [skipOK] at hok
    simp only [Bool.and_eq_true, decide_eq_true_eq] at hok
    obtain ⟨hpos, hok2⟩ := hok
    simp only [run_program]
    rw [run_vm_skip fuel s c false hpos]
    rw [ih _ (show skipOK rest
        ({ (next_op s c false).1 with jump_loop := s.jump_loop + skipDelta c }).jump_loop
          = true from hok2)]
    cases hbm : bf_op_map c <;> simp [next_op, hbm, nest_cons, add_assoc]


/-- Joint induction on the fuel: replayed operations never touch the
instruction log, and the loop-end while loop moreover restores the instruction
pointer and only returns once the current cell is 0. -/
theorem replay_preserves_log (fuel : Nat) :
    (∀ s c t, run_vm fuel s c true = some t → t.instruction = s.instruction) ∧
    (∀ s cur t, replay fuel s cur = some t → t.instruction = s.instruction) ∧
    (∀ s t, loop_iter fuel s = some t →
      t.instruction = s.instruction ∧
      t.instruction_ptr_current = s.instruction_ptr_current ∧ tape_read t = 0) := by
  induction fuel with
  | zero =>
    refine ⟨?_, ?_, ?_⟩ <;> intro s
    · intro c t h; simp [run_vm, exec] at h
    · intro cur t h; simp [replay, exec] at h
    · intro t h; simp [loop_iter, exec] at h
  | succ fuel ih =>
    obtain ⟨ihr, ihp, ihl⟩ := ih
    refine ⟨?_, ?_, ?_⟩
    · intro s c t h
      rcases hbm : bf_op_map c with _ | op
      · have hv : run_vm (fuel + 1) s c true = some s := by
          simp [run_vm, exec, next_op_none hbm]
        rw [hv] at h
        obtain rfl := Option.some.inj h
        rfl
      · cases op <;> simp only [run_vm, exec, next_op_true_some hbm] at h
        case increment_value_op =>
          obtain rfl := Option.some.inj h
          split <;> simp [tape_write]
        case decrement_value_op =>
          obtain rfl := Option.some.inj h
          split <;> simp [tape_write]
        case increment_ptr_op =>
          obtain rfl := Option.some.inj h
          split <;> simp
        case decrement_ptr_op =>
          obtain rfl := Option.some.inj h
          split <;> simp
        case print_op =>
          obtain rfl := Option.some.inj h
          split <;> simp
        case read_op =>
          obtain rfl := Option.some.inj h
          split
          · cases s.input <;> simp [tape_write]
          · rfl
        case loop_start_op =>
          obtain rfl := Option.some.inj h
          split <;> simp
        case loop_end_op =>
          split at h
          · obtain rfl := Option.some.inj h; rfl
          · split at h
            · cases hli : exec fuel (vm_req.iter s) with
              | none => rw [hli] at h; cases h
              | some u =>
                rw [hli] at h
                obtain rfl := Option.some.inj h
                exact (ihl s u hli).1
            · obtain rfl := Option.some.inj h; rfl
        case monostate =>
          obtain rfl := Option.some.inj h
          rfl
    · intro s cur t h
      simp only [replay, exec] at h
      split at h
      · cases hv : exec fuel (vm_req.vm s (s.instruction.getD s.instruction_ptr_current.toNat ' ') true) with
        | none => rw [hv] at h; cases h
        | some u =>
          rw [hv] at h
          have h1 := ihp _ _ _ h
          have h2 := ihr _ _ _ hv
          simp only at h1
          rw [h1, h2]
      · obtain rfl := Option.some.inj h
        rfl
    · intro s t h
      simp only [loop_iter, exec] at h
      split at h
      · cases hrep : exec fuel (vm_req.rep
            { s with instruction_ptr_current := s.instruction_loop_ptr.headD 0 + 1 }
            s.instruction_ptr_current) with
        | none => rw [hrep] at h; cases h
        | some u =>
          rw [hrep] at h
          have h1 := ihl _ _ h
          have h2 := ihp _ _ _ hrep
          simp only at h1 h2
          refine ⟨?_, ?_, h1.2.2⟩
          · rw [h1.1, h2]
          · rw [h1.2.1]
      · obtain rfl := Option.some.inj h
        rename_i hcond
        refine ⟨rfl, rfl, ?_⟩
        omega


/-- A top-level (fresh) execution of one symbol either leaves the log and the
instruction pointer both unchanged (unrecognized symbol) or appends exactly
that symbol and advances the pointer by exactly one (recognized symbol),
even when the symbol is a loop end whose handler replays the body. -/
theorem run_vm_top_log {fuel : Nat} {s : brainfuck_vm_status} {c : Char}
    {t : brainfuck_vm_status} (h : run_vm fuel s c false = some t) :
    (t.instruction = s.instruction ∧
      t.instruction_ptr_current = s.instruction_ptr_current) ∨
    (t.instruction = s.instruction ++ [c] ∧
      t.instruction_ptr_current = s.instruction_ptr_current + 1) := by
  cases fuel with
  | zero => simp [run_vm, exec] at h
  | succ fuel =>
    rcases hbm : bf_op_map c with _ | op
    · have hv : run_vm (fuel + 1) s c false = some s := by
        simp [run_vm, exec, next_op_none hbm]
      rw [hv] at h
      obtain rfl := Option.some.inj h
      exact Or.inl ⟨rfl, rfl⟩
    · refine Or.inr ?_
      cases op <;> simp only [run_vm, exec, next_op_false_some hbm, logged] at h
      case increment_value_op =>
        obtain rfl := Option.some.inj h
        split <;> simp [tape_write]
      case decrement_value_op =>
        obtain rfl := Option.some.inj h
        split <;> simp [tape_write]
      case increment_ptr_op =>
        obtain rfl := Option.some.inj h
        split <;> simp
      case decrement_ptr_op =>
        obtain rfl := Option.some.inj h
        split <;> simp
      case print_op =>
        obtain rfl := Option.some.inj h
        split <;> simp
      case read_op =>
        obtain rfl := Option.some.inj h
        split
        · cases s.input <;> simp [tape_write]
        · simp
      case loop_start_op =>
        obtain rfl := Option.some.inj h
        split <;> simp
      case loop_end_op =>
        split at h
        · obtain rfl := Option.some.inj h; simp
        · split at h
          · cases hli : exec fuel (vm_req.iter { s with instruction := s.instruction ++ [c], instruction_ptr_current := s.instruction_ptr_current + 1 }) with
            | none => rw [hli] at h; cases h
            | some u =>
              rw [hli] at h
              obtain rfl := Option.some.inj h
              have h1 := (replay_preserves_log fuel).2.2 _ _ hli
              simp only at h1
              exact ⟨h1.1, h1.2.1⟩
          · obtain rfl := Option.some.inj h; simp
      case monostate =>
        obtain rfl := Option.some.inj h
        simp


/-- Running n fresh value-increment symbols outside a skip adds n to the
current cell mod 256, appends the n symbols to the log and advances the
instruction pointer by n; nothing else changes. -/
theorem inc_run (n : Nat) (fuel : Nat) (s : brainfuck_vm_status)
    (hj : s.jump_loop = 0) (hv : tape_read s < 256) :
    run_program (fuel + 1) s (List.replicate n '+') =
      some { s with
               tape := fun i => if i = s.tape_ptr then (s.tape s.tape_ptr + n) % 256
                                else s.tape i,
               instruction := s.instruction ++ List.replicate n '+',
               instruction_ptr_current := s.instruction_ptr_current + n } := by
  induction n generalizing s with
  | zero =>
    simp only [List.replicate, run_program, List.append_nil, Nat.cast_zero, add_zero,
      Nat.add_zero]
    refine congrArg some ?_
    unfold tape_read at hv
    ext i
    · by_cases hi : i = s.tape_ptr <;> simp [hi, Nat.mod_eq_of_lt hv]
    all_goals rfl
  | succ n ih =>
    rw [List.replicate_succ]
    simp only [run_program, run_vm_inc fuel s hj]
    have hj1 : (tape_write (logged s '+') ((tape_read (logged s '+') + 1) % 256)).jump_loop = 0 := hj
    have hv1 : tape_read (tape_write (logged s '+') ((tape_read (logged s '+') + 1) % 256)) < 256 := by
      simp [tape_read, tape_write, logged]
      exact Nat.mod_lt _ (by omega)
    rw [ih _ hj1 hv1]
    refine congrArg some ?_
    ext i
    · simp only [tape_write, logged, tape_read]
      by_cases hi : i = s.tape_ptr <;> simp [hi]
      omega
    · rfl
    · simp [tape_write, logged, List.append_assoc]
    · simp only [tape_write, logged]
      push_cast
      ring
    all_goals rfl



/-- Running n fresh value-decrement symbols outside a skip subtracts n from
the current cell mod 256 (adding 255 n), appends the n symbols to the log,
advances the instruction pointer by n and counts n decrements. -/
theorem dec_run (n : Nat) (fuel : Nat) (s : brainfuck_vm_status)
    (hj : s.jump_loop = 0) (hv : tape_read s < 256) :
    run_program (fuel + 1) s (List.replicate n '-') =
      some { s with
               tape := fun i => if i = s.tape_ptr then (s.tape s.tape_ptr + 255 * n) % 256
                                else s.tape i,
               instruction := s.instruction ++ List.replicate n '-',
               instruction_ptr_current := s.instruction_ptr_current + n,
               dec_count := s.dec_count + n } := by
  induction n generalizing s with
  | zero =>
    simp only [List.replicate, run_program, List.append_nil, Nat.cast_zero, add_zero,
      Nat.add_zero, Nat.mul_zero]
    refine congrArg some ?_
    unfold tape_read at hv
    ext i
    · by_cases hi : i = s.tape_ptr <;> simp [hi, Nat.mod_eq_of_lt hv]
    all_goals rfl
  | succ n ih =>
    rw [List.replicate_succ]
    simp only [run_program, run_vm_dec fuel s hj]
    have hj1 : ({ tape_write (logged s '-') ((tape_read (logged s '-') + 255) % 256) with
        dec_count := s.dec_count + 1 }).jump_loop = 0 := hj
    have hv1 : tape_read { tape_write (logged s '-') ((tape_read (logged s '-') + 255) % 256) with
        dec_count := s.dec_count + 1 } < 256 := by
      simp [tape_read, tape_write, logged]
      exact Nat.mod_lt _ (by omega)
    rw [ih _ hj1 hv1]
    refine congrArg some ?_
    ext i
    · simp only [tape_write, logged, tape_read]
      by_cases hi : i = s.tape_ptr <;> simp [hi]
      omega
    · rfl
    · simp [tape_write, logged, List.append_assoc]
    · simp only [tape_write, logged]
      push_cast
      ring
    · rfl
    · rfl
    · rfl
    · rfl
    · simp only [tape_write, logged]
      omega




/-- Running a list of fresh pointer-increment/decrement symbols outside a skip
moves the cell pointer by the difference of the symbol counts and leaves the
tape untouched. -/
theorem ptr_run (cs : List Char) (fuel : Nat) (s : brainfuck_vm_status)
    (hcs : ∀ c ∈ cs, c = '>' ∨ c = '<') (hj : s.jump_loop = 0) :
    run_program (fuel + 1) s cs =
      some { s with
               tape_ptr := s.tape_ptr + (cs.count '>' : Int) - (cs.count '<' : Int),
               instruction := s.instruction ++ cs,
               instruction_ptr_current := s.instruction_ptr_current + cs.length } := by
  induction cs generalizing s with
  | nil =>
    simp only [run_program, List.count_nil, List.append_nil, List.length_nil,
      Nat.cast_zero, add_zero, sub_zero]
  | cons c rest ih =>
    have hrest : ∀ d ∈ rest, d = '>' ∨ d = '<' :=
      fun d hd => hcs d (List.mem_cons_of_mem c hd)
    rcases hcs c (List.mem_cons_self c rest) with rfl | rfl
    · simp only [run_program, run_vm_incp fuel s hj]
      rw [ih { logged s '>' with tape_ptr := s.tape_ptr + 1 } hrest hj]
      refine congrArg some ?_
      ext i
      · rfl
      · simp only [logged, List.count_cons]
        push_cast
        simp
        ring
      · simp [logged]
      · simp only [logged, List.length_cons]
        push_cast
        ring
      all_goals rfl
    · simp only [run_program, run_vm_decp fuel s hj]
      rw [ih { logged s '<' with tape_ptr := s.tape_ptr - 1 } hrest hj]
      refine congrArg some ?_
      ext i
      · rfl
      · simp only [logged, List.count_cons]
        push_cast
        simp
        ring
      · simp [logged]
      · simp only [logged, List.length_cons]
        push_cast
        ring
      all_goals rfl



/-- Exit of the loop-end while loop when the cell is 0. -/
theorem loop_iter_stop (f : Nat) (s : brainfuck_vm_status) (h : tape_read s = 0) :
    loop_iter (f + 1) s = some s := by
  simp [loop_iter, exec, h]

/-- Replayed execution of a value-decrement (no logging). -/
theorem run_vm_dec_replay (fuel : Nat) (s : brainfuck_vm_status) (h : s.jump_loop = 0) :
    run_vm (fuel + 1) s '-' true =
      some { tape_write s ((tape_read s + 255) % 256) with
               dec_count := s.dec_count + 1 } := by
  simp [run_vm, exec, next_op, bf_op_map, h]

/-- One iteration of the loop-end while loop over the single-decrement body
of a decrement-until-zero loop: it decrements the cell once (mod 256), counts
one decrement, restores the instruction pointer and costs one unit of fuel. -/
theorem dec_loop_step (f : Nat) (s : brainfuck_vm_status)
    (hj : s.jump_loop = 0) (hv : tape_read s ≠ 0)
    (hip : s.instruction_ptr_current = s.instruction_loop_ptr.headD 0 + 2)
    (hins : s.instruction.getD (s.instruction_loop_ptr.headD 0 + 1).toNat ' ' = '-') :
    loop_iter (f + 3) s =
      loop_iter (f + 2)
        { s with tape := fun i => if i = s.tape_ptr then (s.tape s.tape_ptr + 255) % 256
                                  else s.tape i,
                 dec_count := s.dec_count + 1 } := by
  have h1 : s.instruction_loop_ptr.headD 0 + 1 < s.instruction_loop_ptr.headD 0 + 2 := by
    omega
  have h2 : ¬ (s.instruction_loop_ptr.headD 0 + 1 + 1 < s.instruction_loop_ptr.headD 0 + 2) := by
    omega
  have h1' : s.instruction_loop_ptr.head?.getD 0 + 1 < s.instruction_loop_ptr.head?.getD 0 + 2 := by
    omega
  have h2' : ¬ (s.instruction_loop_ptr.head?.getD 0 + 1 + 1 < s.instruction_loop_ptr.head?.getD 0 + 2) := by
    omega
  unfold tape_read at hv
  simp only [loop_iter, show f + 3 = f + 2 + 1 from rfl, exec, hip, hins, hj, hv,
    run_vm, next_op, bf_op_map, tape_read, tape_write, logged, h1, h2, if_true,
    if_pos, ne_eq, not_false_iff, ite_true, ite_false]
  have hins' : s.instruction[(s.instruction_loop_ptr.head?.getD 0 + 1).toNat]?.getD ' ' = '-' := by
    simpa using hins
  simp [hv, h1', h2', hins']



/-- The loop-end while loop over a single-decrement body, run to completion:
starting from cell value v (v ≤ 255) it zeroes the cell, performs exactly v
decrements and restores the instruction pointer, given fuel v + fuel + 3. -/
theorem dec_loop (v : Nat) : ∀ (fuel : Nat) (s : brainfuck_vm_status),
    s.jump_loop = 0 → s.tape s.tape_ptr = v → v ≤ 255 →
    s.instruction_ptr_current = s.instruction_loop_ptr.headD 0 + 2 →
    s.instruction.getD (s.instruction_loop_ptr.headD 0 + 1).toNat ' ' = '-' →
    loop_iter (v + fuel + 3) s =
      some { s with tape := fun i => if i = s.tape_ptr then 0 else s.tape i,
                    dec_count := s.dec_count + v } := by
  induction v with
  | zero =>
    intro fuel s hj hv hb hip hins
    rw [show 0 + fuel + 3 = (fuel + 2) + 1 by omega]
    rw [loop_iter_stop (fuel + 2) s (show tape_read s = 0 from hv)]
    refine congrArg some ?_
    ext i
    · by_cases hi : i = s.tape_ptr <;> simp [hi, hv]
    all_goals rfl
  | succ v ih =>
    intro fuel s hj hv hb hip hins
    rw [show (v + 1) + fuel + 3 = (v + fuel + 1) + 3 by omega]
    rw [dec_loop_step (v + fuel + 1) s hj
        (show tape_read s ≠ 0 by unfold tape_read; omega) hip hins]
    rw [show (v + fuel + 1) + 2 = v + fuel + 3 by omega]
    rw [ih fuel
        { s with tape := fun i => if i = s.tape_ptr then (s.tape s.tape_ptr + 255) % 256
                                  else s.tape i,
                 dec_count := s.dec_count + 1 }
        hj
        (by show (if s.tape_ptr = s.tape_ptr then (s.tape s.tape_ptr + 255) % 256
                  else s.tape s.tape_ptr) = v
            rw [if_pos rfl, hv]; omega)
        (by omega) hip hins]
    refine congrArg some ?_
    ext i
    · by_cases hi : i = s.tape_ptr <;> simp [hi]
    · rfl
    · rfl
    · rfl
    · rfl
    · rfl
    · rfl
    · rfl
    · show s.dec_count + 1 + v = s.dec_count + (v + 1)
      omega



/-- Running the suffix loop-start, value-decrement, loop-end from a state
whose current cell holds k (0 < k < 256) zeroes the cell, performs exactly k
further-or-fresh decrements in total (one fresh, k - 1 replayed) and leaves
the instruction pointer at the loop-end's own log index. -/
theorem c3_tail (k : Nat) (h1 : 0 < k) (h2 : k < 256) (s : brainfuck_vm_status)
    (hj : s.jump_loop = 0) (ht : tape_read s = k)
    (hlen : s.instruction_ptr_current = (s.instruction.length : Int) - 1) :
    (run_program (k + 6) s ['[', '-', ']']).map
        (fun t => (tape_read t, t.dec_count, t.instruction_ptr_current)) =
      some (0, s.dec_count + k, s.instruction_ptr_current + 3) := by
  have hbm1 : bf_op_map '[' = some brainfuck_op.loop_start_op := rfl
  have hbm2 : bf_op_map ']' = some brainfuck_op.loop_end_op := rfl
  unfold tape_read at ht
  simp only [run_program]
  rw [show k + 6 = (k + 5) + 1 by omega]
  rw [run_vm_lbracket_push (k + 5) s false hj (by unfold tape_read; omega)]
  simp only [next_op_false_some hbm1 s, logged]
  rw [run_vm_dec (k + 5) { s with instruction := s.instruction ++ ['['], instruction_ptr_current := s.instruction_ptr_current + 1, instruction_loop_ptr := (s.instruction_ptr_current + 1) :: s.instruction_loop_ptr } hj]
  simp only [logged, tape_write, tape_read]
  rcases Nat.lt_or_ge k 2 with hk1 | hk2
  · rw [run_vm_rbracket_zero (k + 5) { s with tape := fun i => if i = s.tape_ptr then (s.tape s.tape_ptr + 255) % 256 else s.tape i, instruction := s.instruction ++ ['['] ++ ['-'], instruction_ptr_current := s.instruction_ptr_current + 1 + 1, instruction_loop_ptr := (s.instruction_ptr_current + 1) :: s.instruction_loop_ptr, dec_count := s.dec_count + 1 } false hj
        (by show (if s.tape_ptr = s.tape_ptr then (s.tape s.tape_ptr + 255) % 256 else s.tape s.tape_ptr) = 0
            rw [if_pos rfl]; omega)]
    simp only [next_op_false_some hbm2, logged, Option.map_some]
    show some ((if s.tape_ptr = s.tape_ptr then (s.tape s.tape_ptr + 255) % 256 else s.tape s.tape_ptr), s.dec_count + 1, s.instruction_ptr_current + 1 + 1 + 1) = some (0, s.dec_count + k, s.instruction_ptr_current + 3)
    rw [if_pos rfl]
    simp only [Option.some.injEq, Prod.mk.injEq]
    refine ⟨?_, ?_, ?_⟩ <;> omega
  · rw [run_vm_rbracket_loop (k + 5) { s with tape := fun i => if i = s.tape_ptr then (s.tape s.tape_ptr + 255) % 256 else s.tape i, instruction := s.instruction ++ ['['] ++ ['-'], instruction_ptr_current := s.instruction_ptr_current + 1 + 1, instruction_loop_ptr := (s.instruction_ptr_current + 1) :: s.instruction_loop_ptr, dec_count := s.dec_count + 1 } false hj
        (by show ¬ (if s.tape_ptr = s.tape_ptr then (s.tape s.tape_ptr + 255) % 256 else s.tape s.tape_ptr) = 0
            rw [if_pos rfl]; omega)]
    simp only [next_op_false_some hbm2, logged]
    rw [show k + 5 = (k - 1) + 3 + 3 by omega]
    have hidx : ((s.instruction_ptr_current + 1) :: s.instruction_loop_ptr).headD 0 + 1 = (s.instruction.length : Int) + 1 := by
      simp only [List.headD_cons]; omega
    rw [dec_loop (k - 1) 3
        { s with tape := fun i => if i = s.tape_ptr then (s.tape s.tape_ptr + 255) % 256 else s.tape i, instruction := s.instruction ++ ['['] ++ ['-'] ++ [']'], instruction_ptr_current := s.instruction_ptr_current + 1 + 1 + 1, instruction_loop_ptr := (s.instruction_ptr_current + 1) :: s.instruction_loop_ptr, dec_count := s.dec_count + 1 }
        hj
        (by show (if s.tape_ptr = s.tape_ptr then (s.tape s.tape_ptr + 255) % 256 else s.tape s.tape_ptr) = (k - 1 : Nat)
            rw [if_pos rfl]; omega)
        (by omega)
        (by show s.instruction_ptr_current + 1 + 1 + 1 = ((s.instruction_ptr_current + 1) :: s.instruction_loop_ptr).headD 0 + 2
            simp only [List.headD_cons]; omega)
        (by show (s.instruction ++ ['['] ++ ['-'] ++ [']']).getD (((s.instruction_ptr_current + 1) :: s.instruction_loop_ptr).headD 0 + 1).toNat ' ' = '-'
            rw [hidx]
            rw [show ((s.instruction.length : Int) + 1).toNat = s.instruction.length + 1 by omega]
            rw [List.append_assoc, List.append_assoc]
            rw [List.getD_append_right _ _ _ _ (by omega)]
            simp)]
    simp only [Option.map_some, List.tail_cons]
    show some ((if s.tape_ptr = s.tape_ptr then (0:Nat) else _), s.dec_count + 1 + (k - 1), s.instruction_ptr_current + 1 + 1 + 1) = some (0, s.dec_count + k, s.instruction_ptr_current + 3)
    rw [if_pos rfl]
    simp only [Option.some.injEq, Prod.mk.injEq]
    exact ⟨trivial, by omega, by omega⟩



/-! ### The claims -/

/-- Claim C1 (amended): for a loop-end processed with skip depth 0, when the
current cell is nonzero the engine runs the replay while loop (`loop_iter`),
which only returns once the cell is 0, and then pops the loop-origin stack;
but when the cell is already 0 at the moment the loop-end is first processed,
the handler returns immediately without popping, leaving the origin entry on
the stack. -/
theorem C1_loop_end_pop (fuel : Nat) (s : brainfuck_vm_status) (vl : Bool)
    (hj : s.jump_loop = 0) :
    (tape_read s = 0 → run_vm (fuel + 1) s ']' vl = some ((next_op s ']' vl).1)) ∧
    (tape_read s ≠ 0 → ∀ t, loop_iter fuel ((next_op s ']' vl).1) = some t →
      run_vm (fuel + 1) s ']' vl =
        some { t with instruction_loop_ptr := t.instruction_loop_ptr.tail } ∧
      tape_read t = 0) := by
  constructor
  · intro h0
    exact run_vm_rbracket_zero fuel s vl hj h0
  · intro hne t hlt
    rw [run_vm_rbracket_loop fuel s vl hj hne, hlt]
    exact ⟨rfl, ((replay_preserves_log fuel).2.2 _ _ hlt).2.2⟩

/-- Claim C1, witness: concrete instance of the amended theorem. -/
theorem C1_witness :
    run_vm 1 init_status ']' false = some ((next_op init_status ']' false).1) :=
  (C1_loop_end_pop 0 init_status false rfl).1 rfl

/-- Claim C1, counterexample to the claim as stated: in the program
value-increment, loop-start, value-decrement, loop-end the loop-start (log
index 1) pushes its entry, the loop-end is first processed with the cell
already 0, and the origin entry is NOT removed: the loop-origin stack still
holds [1] after execution. -/
theorem C1_counterexample_no_pop :
    (run_program 4 init_status ['+', '[', '-', ']']).map
        (fun s => (s.instruction_loop_ptr, tape_read s)) = some ([1], 0) := by
  decide

/-- Claim C2: while the skip depth is positive, every operation leaves the
tape (as a total mapping), the cell pointer, the loop-origin stack and both
I/O collaborators unchanged, never fails, and moves only the skip depth, by
+1 for a loop start, by -1 for a loop end and by 0 for every other symbol. -/
theorem C2_skip_invariant (fuel : Nat) (s : brainfuck_vm_status) (c : Char)
    (vl : Bool) (hpos : 0 < s.jump_loop) :
    (run_vm (fuel + 1) s c vl).map
        (fun t => (t.tape, t.tape_ptr, t.instruction_loop_ptr, t.output, t.input,
                   t.jump_loop)) =
      some (s.tape, s.tape_ptr, s.instruction_loop_ptr, s.output, s.input,
            s.jump_loop + skipDelta c) := by
  rw [run_vm_skip fuel s c vl hpos]
  cases hbm : bf_op_map c <;> cases vl <;> simp [next_op, hbm]

/-- Claim C2, witness: concrete instance at skip depth 1 with a value
increment, which is suppressed. -/
theorem C2_witness :
    (run_vm 1 { init_status with jump_loop := 1 } '+' false).map
        (fun t => (t.tape, t.tape_ptr, t.instruction_loop_ptr, t.output, t.input,
                   t.jump_loop)) =
      some (init_status.tape, init_status.tape_ptr, init_status.instruction_loop_ptr,
            init_status.output, init_status.input, 1 + skipDelta '+') :=
  C2_skip_invariant 0 { init_status with jump_loop := 1 } '+' false (by decide)



/-- Claim C3: for the decrement-until-zero idiom (k value-increments setting
the cell to k with 0 < k < 256, then loop-start, value-decrement, loop-end),
execution terminates with the current cell at 0, the value-decrement executed
exactly k times, and the instruction pointer restored to the loop-end's own
log index k + 2. -/
theorem C3_dec_until_zero (k : Nat) (h1 : 0 < k) (h2 : k < 256) :
    (run_program (k + 6) init_status
        (List.replicate k '+' ++ ['[', '-', ']'])).map
        (fun t => (tape_read t, t.dec_count, t.instruction_ptr_current)) =
      some (0, k, (k : Int) + 2) := by
  rw [run_program_append]
  rw [show k + 6 = (k + 5) + 1 by omega]
  rw [inc_run k (k + 5) init_status rfl (by decide)]
  have hmap := c3_tail k h1 h2
      { init_status with
          tape := fun i => if i = init_status.tape_ptr then
                             (init_status.tape init_status.tape_ptr + k) % 256
                           else init_status.tape i,
          instruction := init_status.instruction ++ List.replicate k '+',
          instruction_ptr_current := init_status.instruction_ptr_current + k }
      rfl
      (by show (if (0:Int) = 0 then (0 + k) % 256 else 0) = k
          rw [if_pos rfl]; omega)
      (by show (-1 : Int) + k = (((List.nil ++ List.replicate k '+') : List Char).length : Int) - 1
          simp
          omega)
  rw [show (k + 5) + 1 = k + 6 by omega]
  rw [hmap]
  show some ((0:Nat), 0 + k, -1 + (k:Int) + 3) = some (0, k, (k:Int) + 2)
  simp only [Option.some.injEq, Prod.mk.injEq]
  exact ⟨trivial, by omega, by omega⟩

/-- Claim C3, witness: the idiom at k = 3. -/
theorem C3_witness :
    (run_program (3 + 6) init_status
        (List.replicate 3 '+' ++ ['[', '-', ']'])).map
        (fun t => (tape_read t, t.dec_count, t.instruction_ptr_current)) =
      some (0, 3, (3 : Int) + 2) :=
  C3_dec_until_zero 3 (by decide) (by decide)

/-- Claim C4: feeding the 16-symbol program (two increments, pointer right,
five increments, a transfer loop, pointer left) to a fresh machine terminates
with cell 0 holding 7, cell 1 holding 0 and the cell pointer at index 0. -/
theorem C4_concrete_program :
    (run_program 12 init_status
        ['+', '+', '>', '+', '+', '+', '+', '+', '[', '<', '+', '>', '-', ']', '<']).map
        (fun s => (s.tape 0, s.tape 1, s.tape_ptr)) = some (7, 0, 0) := by
  decide

/-- Claim C5: N fresh value-increments on a fresh cell leave the current cell
at N mod 256, and N fresh value-decrements leave it at (255 N) mod 256 (the
mod-256 representation of -N); neither ever fails. -/
theorem C5_value_wraps (N : Nat) :
    (run_program 1 init_status (List.replicate N '+')).map tape_read =
      some (N % 256) ∧
    (run_program 1 init_status (List.replicate N '-')).map tape_read =
      some ((255 * N) % 256) := by
  constructor
  · rw [show (1:Nat) = 0 + 1 from rfl]
    rw [inc_run N 0 init_status rfl (by decide)]
    show some (if (0:Int) = 0 then (0 + N) % 256 else 0) = some (N % 256)
    rw [if_pos rfl]
    simp
  · rw [show (1:Nat) = 0 + 1 from rfl]
    rw [dec_run N 0 init_status rfl (by decide)]
    show some (if (0:Int) = 0 then (0 + 255 * N) % 256 else 0) = some ((255 * N) % 256)
    rw [if_pos rfl]
    simp



/-- Claim C6: a loop whose start is processed with the current cell 0 (skip
depth 0) has no effect: for any safely-skippable balanced body (skip depth
stays positive inside, net nesting 0, which covers nested balanced
loop-start/loop-end pairs), after the matching loop-end the tape, the cell
pointer, the output and the loop-origin stack are all unchanged and the skip
depth is back to 0. -/
theorem C6_skip_body_no_effect (body : List Char) (fuel : Nat)
    (s : brainfuck_vm_status) (hj : s.jump_loop = 0) (ht : tape_read s = 0)
    (hok : skipOK body 1 = true) (hnest : nest body = 0) :
    (run_program (fuel + 1) s ('[' :: (body ++ [']']))).map
        (fun t => (t.tape, t.tape_ptr, t.output, t.instruction_loop_ptr,
                   t.jump_loop)) =
      some (s.tape, s.tape_ptr, s.output, s.instruction_loop_ptr, 0) := by
  have hbm1 : bf_op_map '[' = some brainfuck_op.loop_start_op := rfl
  have hbm2 : bf_op_map ']' = some brainfuck_op.loop_end_op := rfl
  simp only [run_program]
  rw [run_vm_lbracket_zero fuel s false hj ht]
  simp only [next_op_false_some hbm1, logged]
  have hskip := skip_run body fuel
      { s with instruction := s.instruction ++ ['['],
               instruction_ptr_current := s.instruction_ptr_current + 1,
               jump_loop := 1 }
      (by show skipOK body 1 = true; exact hok)
  cases hrun : run_program (fuel + 1)
      { s with instruction := s.instruction ++ ['['],
               instruction_ptr_current := s.instruction_ptr_current + 1,
               jump_loop := 1 } body with
  | none => rw [hrun] at hskip; simp at hskip
  | some u =>
    rw [hrun] at hskip
    simp only [Option.map_some', Option.some.injEq, Prod.mk.injEq] at hskip
    obtain ⟨e1, e2, e3, e4, e5, e6, e7⟩ := hskip
    rw [run_program_append, hrun]
    simp only [run_program]
    have hupos : 0 < u.jump_loop := by rw [e7]; rw [hnest]; norm_num
    rw [run_vm_skip fuel u ']' false hupos]
    simp only [next_op_false_some hbm2, logged, Option.map_some', Option.some.injEq,
      Prod.mk.injEq]
    refine ⟨e1, e2, e4, e3, ?_⟩
    rw [e7, hnest]
    rw [show skipDelta ']' = -1 from rfl]
    omega



/-- Claim C6, witness: an outer false-condition loop wrapping two inner
balanced loop-start/loop-end pairs, from a fresh machine. -/
theorem C6_witness :
    (run_program 1 init_status ('[' :: (['[', ']', '[', ']'] ++ [']']))).map
        (fun t => (t.tape, t.tape_ptr, t.output, t.instruction_loop_ptr,
                   t.jump_loop)) =
      some (init_status.tape, init_status.tape_ptr, init_status.output,
            init_status.instruction_loop_ptr, 0) :=
  C6_skip_body_no_effect ['[', ']', '[', ']'] 0 init_status rfl rfl
    (by decide) (by decide)

/-- Claim C7: an unrecognized symbol decodes to the monostate no-op with no
logging and no instruction-pointer movement, never fails, and executing it
leaves the entire machine state unchanged. -/
theorem C7_invalid_noop (s : brainfuck_vm_status) (c : Char) (vl : Bool)
    (fuel : Nat) (h : bf_op_map c = none) :
    next_op s c vl = (s, brainfuck_op.monostate) ∧
    run_vm (fuel + 1) s c vl = some s := by
  refine ⟨next_op_none h s vl, ?_⟩
  simp [run_vm, exec, next_op, h]

/-- Claim C7, witness: the symbol x is not an operator. -/
theorem C7_witness :
    next_op init_status 'x' false = (init_status, brainfuck_op.monostate) ∧
    run_vm 1 init_status 'x' false = some init_status :=
  C7_invalid_noop init_status 'x' false 0 (by decide)

/-- Claim C8: decoding a recognized symbol freshly (not replaying) appends
exactly that symbol to the instruction log and advances the instruction
pointer by exactly one; decoding in replay mode never appends to the log,
whatever the symbol. -/
theorem C8_decode_logging (s : brainfuck_vm_status) (c : Char)
    (op : brainfuck_op) (h : bf_op_map c = some op) :
    next_op s c false =
      ({ s with instruction := s.instruction ++ [c],
                instruction_ptr_current := s.instruction_ptr_current + 1 }, op) ∧
    ∀ d : Char, (next_op s d true).1 = s := by
  refine ⟨next_op_false_some h s, ?_⟩
  intro d
  cases hbm : bf_op_map d <;> simp [next_op, hbm]

/-- Claim C8, witness: decoding a fresh value-increment from a fresh machine. -/
theorem C8_witness :
    next_op init_status '+' false =
      ({ init_status with
           instruction := init_status.instruction ++ ['+'],
           instruction_ptr_current := init_status.instruction_ptr_current + 1 },
        brainfuck_op.increment_value_op) ∧
    ∀ d : Char, (next_op init_status d true).1 = init_status :=
  C8_decode_logging init_status '+' brainfuck_op.increment_value_op (by decide)

/-- Claim C9: a sequence of pointer-increment/decrement symbols with equally
many of each, executed with skip depth 0, returns the cell pointer to its
original index and leaves the tape unchanged, whatever the intermediate
excursions. -/
theorem C9_pointer_net_zero (cs : List Char) (fuel : Nat)
    (s : brainfuck_vm_status) (hcs : ∀ c ∈ cs, c = '>' ∨ c = '<')
    (hnet : cs.count '>' = cs.count '<') (hj : s.jump_loop = 0) :
    (run_program (fuel + 1) s cs).map (fun t => (t.tape_ptr, t.tape)) =
      some (s.tape_ptr, s.tape) := by
  rw [ptr_run cs fuel s hcs hj]
  simp [hnet]

/-- Claim C9, witness: two rights then two lefts from a fresh machine. -/
theorem C9_witness :
    (run_program 1 init_status ['>', '>', '<', '<']).map
        (fun t => (t.tape_ptr, t.tape)) =
      some (init_status.tape_ptr, init_status.tape) :=
  C9_pointer_net_zero ['>', '>', '<', '<'] 0 init_status (by decide) (by decide) rfl

/-- Claim C10: the invariant that the instruction pointer equals the length
of the instruction log minus one is preserved by every terminating top-level
(fresh) execution of a symbol: a recognized symbol advances both together, an
unrecognized one changes neither, and the loop-end replay restores the
pointer before returning. -/
theorem C10_ip_log_invariant (fuel : Nat) (s : brainfuck_vm_status) (c : Char)
    (t : brainfuck_vm_status) (hrun : run_vm fuel s c false = some t)
    (hinv : s.instruction_ptr_current = (s.instruction.length : Int) - 1) :
    t.instruction_ptr_current = (t.instruction.length : Int) - 1 := by
  rcases run_vm_top_log hrun with ⟨e1, e2⟩ | ⟨e1, e2⟩
  · rw [e2, e1, hinv]
  · rw [e2, e1, hinv]
    simp [List.length_append]

/-- Claim C10, witness: one fresh value-increment from a fresh machine, whose
state satisfies the invariant (-1 = 0 - 1). -/
theorem C10_witness :
    ((run_vm 1 init_status '+' false).getD init_status).instruction_ptr_current =
      (((run_vm 1 init_status '+' false).getD init_status).instruction.length : Int) - 1 :=
  C10_ip_log_invariant 1 init_status '+'
    ((run_vm 1 init_status '+' false).getD init_status) rfl (by decide)


end BrainfuckVM
